import Mathlib

/-!
# Verification of `stopwords.py`

A shallow embedding of the stopword-removal module `src/stopwords.py`.
Python strings and tokens are modelled as `List Char`; Python sets of words
are modelled as lists of character lists used only for membership tests;
`str.lower()` is modelled character-wise by `Char.toLower` (the ASCII case
mapping).  The apostrophe character is written `Char.ofNat 39`, the double
quote `Char.ofNat 34`, and the curly braces `Char.ofNat 123` / `Char.ofNat 125`.
-/

namespace Stopwords

/-- The apostrophe character `U+0027`. -/
def apos : Char := Char.ofNat 39

/-- Helper to build a contraction word such as `it` + apostrophe + `s`. -/
def contr (a b : String) : List Char := a.toList ++ apos :: b.toList

/-- The `DEFAULT_STOPWORDS` set of `stopwords.py` (lines 27-51), in source order. -/
def DEFAULT_STOPWORDS : List (List Char) :=
  [ "a".toList, "an".toList, "the".toList,
    "and".toList, "or".toList, "but".toList, "so".toList, "because".toList,
    "as".toList, "if".toList, "than".toList, "then".toList, "that".toList,
    "this".toList, "these".toList, "those".toList,
    "in".toList, "on".toList, "at".toList, "to".toList, "from".toList,
    "of".toList, "for".toList, "with".toList, "about".toList, "into".toList,
    "over".toList, "under".toList, "between".toList,
    "after".toList, "before".toList, "during".toList, "through".toList,
    "against".toList, "without".toList, "within".toList,
    "is".toList, "am".toList, "are".toList, "was".toList, "were".toList,
    "be".toList, "been".toList, "being".toList,
    "do".toList, "does".toList, "did".toList,
    "have".toList, "has".toList, "had".toList,
    "can".toList, "could".toList, "may".toList, "might".toList, "must".toList,
    "shall".toList, "should".toList, "will".toList, "would".toList,
    "very".toList, "really".toList, "just".toList, "also".toList, "too".toList,
    "quite".toList, "rather".toList,
    "it".toList, "its".toList, contr "it" "s", "im".toList, contr "i" "m",
    "youre".toList, contr "you" "re", "theyre".toList, contr "they" "re" ]

/-- The `NEGATIONS` set of `stopwords.py` (lines 58-62). -/
def NEGATIONS : List (List Char) :=
  [ "no".toList, "not".toList, "never".toList, "none".toList,
    "nothing".toList, "nowhere".toList,
    contr "can" "t", "cannot".toList, "dont".toList, contr "don" "t",
    contr "doesn" "t", contr "didn" "t",
    contr "won" "t", contr "wouldn" "t", contr "shouldn" "t",
    contr "isn" "t", contr "aren" "t", contr "wasn" "t", contr "weren" "t" ]

/-- The `PRONOUNS` set of `stopwords.py` (lines 66-73). -/
def PRONOUNS : List (List Char) :=
  [ "i".toList, "me".toList, "my".toList, "mine".toList,
    "we".toList, "us".toList, "our".toList, "ours".toList,
    "you".toList, "your".toList, "yours".toList,
    "he".toList, "him".toList, "his".toList,
    "she".toList, "her".toList, "hers".toList,
    "they".toList, "them".toList, "their".toList, "theirs".toList ]

/-- The punctuation string `punct` of `_normalize_token` (line 86). -/
def PUNCT : List Char :=
  [ '.', ',', '!', '?', ';', ':', Char.ofNat 34, apos,
    '(', ')', '[', ']', Char.ofNat 123, Char.ofNat 125, '<', '>' ]

/-- The first `while` loop of `_normalize_token` (lines 87-88): drop the first
character while it belongs to the punctuation set. -/
def stripLeading (punct : List Char) : List Char → List Char
  | [] => []
  | c :: cs => if c ∈ punct then stripLeading punct cs else c :: cs

/-- The second `while` loop of `_normalize_token` (lines 89-90): drop the last
character while it belongs to the punctuation set. -/
def stripTrailing (punct : List Char) : List Char → List Char
  | [] => []
  | c :: cs =>
    match stripTrailing punct cs with
    | [] => if c ∈ punct then [] else [c]
    | d :: ds => c :: d :: ds

/-- `_normalize_token` (lines 79-92): lowercase, then strip leading and
trailing punctuation. -/
def normalize_token (t : List Char) : List Char :=
  stripTrailing PUNCT (stripLeading PUNCT (t.map Char.toLower))

/-- Whitespace characters for Python `str.split()` (ASCII part). -/
def isSpaceChar (c : Char) : Bool :=
  c = ' ' || c = Char.ofNat 9 || c = Char.ofNat 10 ||
  c = Char.ofNat 13 || c = Char.ofNat 11 || c = Char.ofNat 12

/-- Accumulator-style worker for `str.split()`: split on runs of whitespace,
discarding empty pieces.  `acc` holds the current in-progress token, reversed. -/
def splitWsAux : List Char → List Char → List (List Char)
  | [], acc => if acc.isEmpty then [] else [acc.reverse]
  | c :: cs, acc =>
    if isSpaceChar c then
      if acc.isEmpty then splitWsAux cs [] else acc.reverse :: splitWsAux cs []
    else splitWsAux cs (c :: acc)

/-- Python `text_or_tokens.split()` (line 139). -/
def splitWs (l : List Char) : List (List Char) := splitWsAux l []

/-- The `text_or_tokens` argument of `remove_stopwords`: either a raw string
or a list of tokens (lines 138-142). -/
inductive PyInput where
  | text (s : List Char)
  | tokens (ts : List (List Char))
deriving DecidableEq

/-- The result of `remove_stopwords`: a token list or a joined string
(lines 169-173). -/
inductive PyOutput where
  | tokens (ts : List (List Char))
  | text (s : List Char)
deriving DecidableEq

/-- The `raw_tokens` computed at lines 138-142: split a string input on
whitespace, pass a token-list input through unchanged. -/
def rawTokens : PyInput → List (List Char)
  | .text s => splitWs s
  | .tokens ts => ts

/-- The filtering loop of `remove_stopwords` (lines 144-167), building the
`cleaned` list: skip empty normalized tokens, keep negations when
`keep_negations`, keep pronouns when `keep_pronouns`, drop stopwords,
keep everything else. -/
def cleanTokens (stopwords : List (List Char)) (keep_negations keep_pronouns : Bool) :
    List (List Char) → List (List Char)
  | [] => []
  | tok :: rest =>
    let norm := normalize_token tok
    if norm = [] then
      cleanTokens stopwords keep_negations keep_pronouns rest
    else if keep_negations ∧ norm ∈ NEGATIONS then
      norm :: cleanTokens stopwords keep_negations keep_pronouns rest
    else if keep_pronouns ∧ norm ∈ PRONOUNS then
      norm :: cleanTokens stopwords keep_negations keep_pronouns rest
    else if norm ∈ stopwords then
      cleanTokens stopwords keep_negations keep_pronouns rest
    else
      norm :: cleanTokens stopwords keep_negations keep_pronouns rest

/-- Python `" ".join(cleaned)` (line 170). -/
def joinSpaces : List (List Char) → List Char
  | [] => []
  | [t] => t
  | t :: rest => t ++ ' ' :: joinSpaces rest

/-- The stopword-set resolution at lines 134-135: `None` means
`DEFAULT_STOPWORDS`. -/
def activeStopwords (stopwords : Option (List (List Char))) : List (List Char) :=
  match stopwords with
  | none => DEFAULT_STOPWORDS
  | some s => s

/-- `remove_stopwords` (lines 98-173).  `stopwords = none` models the Python
default `None`, replaced by `DEFAULT_STOPWORDS` (lines 134-135); the final
`return_type` test is the string comparison at line 169. -/
def remove_stopwords (text_or_tokens : PyInput)
    (stopwords : Option (List (List Char)) := none)
    (keep_negations : Bool := true) (keep_pronouns : Bool := false)
    (return_type : List Char := "tokens".toList) : PyOutput :=
  let sw := activeStopwords stopwords
  let cleaned := cleanTokens sw keep_negations keep_pronouns (rawTokens text_or_tokens)
  if return_type = "text".toList then .text (joinSpaces cleaned)
  else .tokens cleaned

/-- The per-token keep decision of the loop body (lines 146-167), as a
predicate on the normalized token; used to restate the loop as a
`filter` over the normalized tokens. -/
def keptAfterNorm (stopwords : List (List Char)) (keep_negations keep_pronouns : Bool)
    (norm : List Char) : Bool :=
  if norm = [] then false
  else if keep_negations ∧ norm ∈ NEGATIONS then true
  else if keep_pronouns ∧ norm ∈ PRONOUNS then true
  else if norm ∈ stopwords then false
  else true

/- ## Helper lemmas -/

theorem toNat_ofNat_valid (n : Nat) (h : n.isValidChar) : (Char.ofNat n).toNat = n := by
  simp [Char.ofNat, h, Char.ofNatAux, Char.toNat, UInt32.toNat]

theorem toLower_toLower (c : Char) : c.toLower.toLower = c.toLower := by
  unfold Char.toLower
  by_cases h : c.toNat ≥ 65 ∧ c.toNat ≤ 90
  · have hv : (c.toNat + 32).isValidChar := Or.inl (by omega)
    rw [if_pos h, toNat_ofNat_valid _ hv, if_neg (by omega)]
  · rw [if_neg h, if_neg h]

theorem stripTrailing_cons (p : List Char) (c : Char) (cs : List Char) :
    stripTrailing p (c :: cs) =
      match stripTrailing p cs with
      | [] => if c ∈ p then [] else [c]
      | d :: ds => c :: d :: ds := rfl

theorem stripLeading_sublist (p l : List Char) : List.Sublist (stripLeading p l) l := by
  induction l with
  | nil => simp [stripLeading]
  | cons c cs ih =>
    by_cases h : c ∈ p
    · simp only [stripLeading, if_pos h]
      exact ih.cons c
    · simp [stripLeading, h]

theorem stripTrailing_sublist (p l : List Char) : List.Sublist (stripTrailing p l) l := by
  induction l with
  | nil => simp [stripTrailing]
  | cons c cs ih =>
    cases hr : stripTrailing p cs with
    | nil =>
      by_cases h : c ∈ p <;> simp [stripTrailing, hr, h]
    | cons d ds =>
      simp only [stripTrailing, hr]
      exact (hr ▸ ih).cons₂ c

theorem stripLeading_head_not_mem (p l : List Char) (c : Char) (cs : List Char)
    (h : stripLeading p l = c :: cs) : c ∉ p := by
  induction l with
  | nil => simp [stripLeading] at h
  | cons a as ih =>
    by_cases ha : a ∈ p
    · rw [stripLeading, if_pos ha] at h
      exact ih h
    · rw [stripLeading, if_neg ha] at h
      cases h
      exact ha

theorem stripTrailing_cons_eq (p : List Char) (c : Char) (cs : List Char) :
    stripTrailing p (c :: cs) = [] ∨ ∃ ds, stripTrailing p (c :: cs) = c :: ds := by
  cases hr : stripTrailing p cs with
  | nil =>
    by_cases h : c ∈ p
    · left; simp [stripTrailing, hr, h]
    · right; exact ⟨[], by simp [stripTrailing, hr, h]⟩
  | cons d ds =>
    right; exact ⟨d :: ds, by simp [stripTrailing, hr]⟩

theorem stripTrailing_idem (p l : List Char) :
    stripTrailing p (stripTrailing p l) = stripTrailing p l := by
  induction l with
  | nil => rfl
  | cons c cs ih =>
    cases hr : stripTrailing p cs with
    | nil =>
      by_cases h : c ∈ p <;> simp [stripTrailing, hr, h]
    | cons d ds =>
      have hd : stripTrailing p (d :: ds) = d :: ds := hr ▸ ih
      have h1 : stripTrailing p (c :: cs) = c :: d :: ds := by
        rw [stripTrailing_cons, hr]
      rw [h1, stripTrailing_cons, hd]

theorem normalize_token_fixed_chars (t : List Char) :
    ∀ c ∈ normalize_token t, Char.toLower c = c := by
  intro c hc
  have hA : c ∈ stripLeading PUNCT (t.map Char.toLower) :=
    (stripTrailing_sublist PUNCT _).subset hc
  have hL : c ∈ t.map Char.toLower :=
    (stripLeading_sublist PUNCT _).subset hA
  obtain ⟨a, _, rfl⟩ := List.mem_map.1 hL
  exact toLower_toLower a

theorem normalize_token_idem (t : List Char) :
    normalize_token (normalize_token t) = normalize_token t := by
  have hmap : (normalize_token t).map Char.toLower = normalize_token t := by
    rw [List.map_congr_left (g := id) (normalize_token_fixed_chars t), List.map_id]
  have hstripL : stripLeading PUNCT (normalize_token t) = normalize_token t := by
    cases hB : normalize_token t with
    | nil => rfl
    | cons c ds =>
      unfold normalize_token at hB
      cases hA : stripLeading PUNCT (t.map Char.toLower) with
      | nil => rw [hA] at hB; simp [stripTrailing] at hB
      | cons a as =>
        rw [hA] at hB
        have hanp : a ∉ PUNCT := stripLeading_head_not_mem PUNCT _ a as hA
        rcases stripTrailing_cons_eq PUNCT a as with h0 | ⟨es, he⟩
        · rw [h0] at hB; cases hB
        · rw [he] at hB
          cases hB
          rw [stripLeading, if_neg hanp]
  have hstripT : stripTrailing PUNCT (normalize_token t) = normalize_token t := by
    unfold normalize_token
    exact stripTrailing_idem PUNCT _
  show stripTrailing PUNCT (stripLeading PUNCT ((normalize_token t).map Char.toLower)) = _
  rw [hmap, hstripL, hstripT]

theorem cleanTokens_eq_filter (sw : List (List Char)) (kn kp : Bool) (ts : List (List Char)) :
    cleanTokens sw kn kp ts = (ts.map normalize_token).filter (keptAfterNorm sw kn kp) := by
  induction ts with
  | nil => rfl
  | cons tok rest ih =>
    cases kn <;> cases kp <;>
      simp only [cleanTokens, List.map_cons, List.filter_cons, keptAfterNorm] <;>
      by_cases h1 : normalize_token tok = [] <;>
      by_cases h2 : normalize_token tok ∈ NEGATIONS <;>
      by_cases h3 : normalize_token tok ∈ PRONOUNS <;>
      by_cases h4 : normalize_token tok ∈ sw <;>
      simp [h1, h2, h3, h4, ih]

theorem cleanTokens_append (sw : List (List Char)) (kn kp : Bool)
    (l1 l2 : List (List Char)) :
    cleanTokens sw kn kp (l1 ++ l2) =
      cleanTokens sw kn kp l1 ++ cleanTokens sw kn kp l2 := by
  simp [cleanTokens_eq_filter, List.filter_append]

/- ## Claim theorems -/

/-- Claim C1: for the input string
`I am not happy with the battery life, but it is not terrible.` with
`keep_negations = true`, `keep_pronouns = false`, the default stopword set and
`return_type = "tokens"`, `remove_stopwords` returns exactly the token list
`[i, not, happy, battery, life, not, terrible]`. -/
theorem default_scenario_tokens :
    remove_stopwords
      (.text ("I am not happy with the battery life, but it is not terrible.".toList))
      none true false ("tokens".toList) =
    .tokens ["i".toList, "not".toList, "happy".toList, "battery".toList,
             "life".toList, "not".toList, "terrible".toList] := by
  decide

/-- Claim C2: a token whose normalized form is in the negation set is always
retained when `keep_negations` is true, at its position in the output,
regardless of the active stopword set; the witness instantiates this with the
custom stopword set containing exactly `not`. -/
theorem negation_overrides_stopwords (sw : List (List Char)) (kp : Bool)
    (pre post : List (List Char)) (tok : List Char)
    (h : normalize_token tok ∈ NEGATIONS) :
    remove_stopwords (.tokens (pre ++ tok :: post)) (some sw) true kp ("tokens".toList) =
      .tokens (cleanTokens sw true kp pre ++
               normalize_token tok :: cleanTokens sw true kp post) := by
  have hne : normalize_token tok ≠ [] := by
    intro h0
    rw [h0] at h
    exact absurd h (by decide)
  simp only [remove_stopwords, activeStopwords, rawTokens]
  rw [if_neg (by decide)]
  congr 1
  rw [cleanTokens_append]
  congr 1
  rw [cleanTokens_eq_filter, List.map_cons, List.filter_cons]
  have hk : keptAfterNorm sw true kp (normalize_token tok) = true := by
    rw [keptAfterNorm, if_neg hne, if_pos ⟨rfl, h⟩]
  rw [hk]
  simp [cleanTokens_eq_filter]

/-- Witness for claim C2: with custom stopword set containing exactly `not`
and `keep_negations = true`, the token `not` appears in the output. -/
theorem negation_overrides_stopwords_witness :
    remove_stopwords (.tokens [("not".toList)]) (some [("not".toList)]) true false
      ("tokens".toList) = .tokens [("not".toList)] := by
  have h := negation_overrides_stopwords [("not".toList)] false [] [] ("not".toList)
    (by decide)
  simp only [List.nil_append] at h
  rw [h]
  decide

/-- Claim C3: a token whose normalized form is in the pronoun set and also in
the active stopword set is retained, at its position in the output, when
`keep_pronouns` is true (whether or not the negation check already retained
it). -/
theorem pronoun_priority (sw : List (List Char)) (kn : Bool)
    (pre post : List (List Char)) (tok : List Char)
    (hp : normalize_token tok ∈ PRONOUNS) (_hs : normalize_token tok ∈ sw) :
    remove_stopwords (.tokens (pre ++ tok :: post)) (some sw) kn true ("tokens".toList) =
      .tokens (cleanTokens sw kn true pre ++
               normalize_token tok :: cleanTokens sw kn true post) := by
  have hne : normalize_token tok ≠ [] := by
    intro h0
    rw [h0] at hp
    exact absurd hp (by decide)
  simp only [remove_stopwords, activeStopwords, rawTokens]
  rw [if_neg (by decide)]
  congr 1
  rw [cleanTokens_append]
  congr 1
  rw [cleanTokens_eq_filter, List.map_cons, List.filter_cons]
  have hk : keptAfterNorm sw kn true (normalize_token tok) = true := by
    by_cases h2 : kn = true ∧ normalize_token tok ∈ NEGATIONS
    · rw [keptAfterNorm, if_neg hne, if_pos h2]
    · rw [keptAfterNorm, if_neg hne, if_neg h2, if_pos ⟨rfl, hp⟩]
  rw [hk]
  simp [cleanTokens_eq_filter]

/-- Witness for claim C3: the pronoun `i`, placed in the active stopword set,
is retained when `keep_pronouns = true`. -/
theorem pronoun_priority_witness :
    remove_stopwords (.tokens [("i".toList)]) (some [("i".toList)]) true true
      ("tokens".toList) = .tokens [("i".toList)] := by
  have h := pronoun_priority [("i".toList)] true [] [] ("i".toList) (by decide) (by decide)
  simp only [List.nil_append] at h
  rw [h]
  decide

/-- Claim C4: on the same input sentence with `keep_negations = false` and the
default stopword set, `not` is still retained, because `not` is not a member
of `DEFAULT_STOPWORDS` and therefore survives the stopword check. -/
theorem keep_negations_false_still_keeps_not :
    ("not".toList ∉ DEFAULT_STOPWORDS) ∧
    remove_stopwords
      (.text ("I am not happy with the battery life, but it is not terrible.".toList))
      none false false ("tokens".toList) =
    .tokens ["i".toList, "not".toList, "happy".toList, "battery".toList,
             "life".toList, "not".toList, "terrible".toList] := by
  decide

/-- Claim C5: for every input and configuration, the `text` return value is
exactly the single-space join of the `tokens` return value under the same
configuration. -/
theorem text_return_joins_tokens (x : PyInput) (st : Option (List (List Char)))
    (kn kp : Bool) :
    ∃ ts, remove_stopwords x st kn kp ("tokens".toList) = .tokens ts ∧
      remove_stopwords x st kn kp ("text".toList) = .text (joinSpaces ts) := by
  refine ⟨cleanTokens (activeStopwords st) kn kp (rawTokens x), ?_, ?_⟩
  · simp only [remove_stopwords]
    rw [if_neg (by decide)]
  · simp [remove_stopwords]

/-- Claim C6: for every input and configuration, the output token list is an
order-preserving subsequence of the normalized input tokens, its length is at
most the number of input tokens, and the empty token never appears in it. -/
theorem output_subsequence (x : PyInput) (st : Option (List (List Char))) (kn kp : Bool)
    (ts : List (List Char))
    (h : remove_stopwords x st kn kp ("tokens".toList) = .tokens ts) :
    List.Sublist ts ((rawTokens x).map normalize_token) ∧
    ts.length ≤ (rawTokens x).length ∧ [] ∉ ts := by
  simp only [remove_stopwords] at h
  rw [if_neg (by decide)] at h
  injection h with h
  subst h
  rw [cleanTokens_eq_filter]
  refine ⟨List.filter_sublist _, ?_, ?_⟩
  · have := (List.filter_sublist (p := keptAfterNorm (activeStopwords st) kn kp)
      ((rawTokens x).map normalize_token)).length_le
    rw [List.length_map] at this
    exact this
  · intro hmem
    have hkept := (List.mem_filter.1 hmem).2
    rw [keptAfterNorm, if_pos rfl] at hkept
    exact Bool.false_ne_true hkept

/-- Witness for claim C6, at the default scenario sentence. -/
theorem output_subsequence_witness :
    List.Sublist
      ["i".toList, "not".toList, "happy".toList, "battery".toList,
       "life".toList, "not".toList, "terrible".toList]
      ((rawTokens
        (.text ("I am not happy with the battery life, but it is not terrible.".toList))).map
          normalize_token) ∧
    (["i".toList, "not".toList, "happy".toList, "battery".toList,
      "life".toList, "not".toList, "terrible".toList] : List (List Char)).length ≤
      (rawTokens
        (.text ("I am not happy with the battery life, but it is not terrible.".toList))).length ∧
    ([] : List Char) ∉
      ["i".toList, "not".toList, "happy".toList, "battery".toList,
       "life".toList, "not".toList, "terrible".toList] :=
  output_subsequence
    (.text ("I am not happy with the battery life, but it is not terrible.".toList))
    none true false _ (by decide)

/-- Claim C7: `_normalize_token` is idempotent: normalizing an
already-normalized token changes nothing. -/
theorem normalize_token_idempotent (t : List Char) :
    normalize_token (normalize_token t) = normalize_token t :=
  normalize_token_idem t

/-- Claim C8: normalization strips only leading and trailing punctuation:
`life,` normalizes to `life`, the contraction `don` + apostrophe + `t` keeps
its internal apostrophe, is a member of the negation set, and is retained by
`remove_stopwords` under the default configuration. -/
theorem punctuation_stripping_examples :
    normalize_token ("life,".toList) = "life".toList ∧
    normalize_token (contr "don" "t") = contr "don" "t" ∧
    contr "don" "t" ∈ NEGATIONS ∧
    remove_stopwords (.tokens [contr "don" "t"]) none true false ("tokens".toList) =
      .tokens [contr "don" "t"] := by
  decide

/-- Claim C9: every `return_type` value other than `text` (for example `TEXT`
or `list`) yields the token-list result, identical to `return_type = "tokens"`;
no error is possible. -/
theorem unrecognized_return_type_gives_tokens (rt : List Char) (h : rt ≠ "text".toList)
    (x : PyInput) (st : Option (List (List Char))) (kn kp : Bool) :
    remove_stopwords x st kn kp rt = remove_stopwords x st kn kp ("tokens".toList) ∧
    ∃ ts, remove_stopwords x st kn kp rt = .tokens ts := by
  constructor
  · simp only [remove_stopwords]
    rw [if_neg h, if_neg (by decide)]
  · refine ⟨cleanTokens (activeStopwords st) kn kp (rawTokens x), ?_⟩
    simp only [remove_stopwords]
    rw [if_neg h]

/-- Witness for claim C9, at the unrecognized value `TEXT`. -/
theorem unrecognized_return_type_gives_tokens_witness :
    (remove_stopwords (.tokens ["Not".toList]) none true false ("TEXT".toList) =
       remove_stopwords (.tokens ["Not".toList]) none true false ("tokens".toList) ∧
     ∃ ts, remove_stopwords (.tokens ["Not".toList]) none true false ("TEXT".toList) =
       .tokens ts) :=
  unrecognized_return_type_gives_tokens ("TEXT".toList) (by decide)
    (.tokens ["Not".toList]) none true false

/-- Claim C10: `remove_stopwords` is idempotent on its own token output: under
a fixed configuration, feeding the token-list result back in returns it
unchanged. -/
theorem remove_stopwords_idempotent (x : PyInput) (st : Option (List (List Char)))
    (kn kp : Bool) (ts : List (List Char))
    (h : remove_stopwords x st kn kp ("tokens".toList) = .tokens ts) :
    remove_stopwords (.tokens ts) st kn kp ("tokens".toList) = .tokens ts := by
  simp only [remove_stopwords] at h ⊢
  rw [if_neg (by decide)] at h ⊢
  injection h with h
  subst h
  congr 1
  show cleanTokens _ kn kp (cleanTokens _ kn kp (rawTokens x)) = _
  rw [cleanTokens_eq_filter, cleanTokens_eq_filter]
  have hmapfix :
      (((rawTokens x).map normalize_token).filter
          (keptAfterNorm (activeStopwords st) kn kp)).map normalize_token =
      ((rawTokens x).map normalize_token).filter
        (keptAfterNorm (activeStopwords st) kn kp) := by
    rw [List.map_congr_left (g := id) ?_, List.map_id]
    intro a ha
    have hmem : a ∈ (rawTokens x).map normalize_token := (List.mem_filter.1 ha).1
    obtain ⟨b, _, rfl⟩ := List.mem_map.1 hmem
    exact normalize_token_idem b
  rw [hmapfix]
  exact List.filter_eq_self.2 fun a ha => (List.mem_filter.1 ha).2

/-- Witness for claim C10, at the default scenario output. -/
theorem remove_stopwords_idempotent_witness :
    remove_stopwords
      (.tokens ["i".toList, "not".toList, "happy".toList, "battery".toList,
                "life".toList, "not".toList, "terrible".toList])
      none true false ("tokens".toList) =
    .tokens ["i".toList, "not".toList, "happy".toList, "battery".toList,
             "life".toList, "not".toList, "terrible".toList] :=
  remove_stopwords_idempotent
    (.text ("I am not happy with the battery life, but it is not terrible.".toList))
    none true false _ (by decide)

end Stopwords
